import Mathlib

/-!
Verification of the incremental chunk-aligned byte-stream encoders of the
mkutils repository: the base64 streaming encoders (`base_64_stream.py`,
`b64_stream.py`), the chunked byte buffer and byte buffer (`b64_stream.py`,
`buffer.py`), and the audio container encoders (`audio_encoder.py`).

Bytes are modelled as natural numbers (values < 256 where it matters) and
byte strings as `List Nat`.  Python text is modelled as `List Char`.
Methods that can raise a Python exception are embedded with an explicit
`Except PyError` result; methods whose bodies cannot raise are total
functions.  Mutation is modelled by explicit state passing: a method that
mutates `self` returns the updated structure together with its result.
-/

/-- The Python exceptions relevant to these components. -/
inductive PyError where
  | frozenInstanceError
  | zeroDivisionError
  | codecFlushPrecondition
deriving DecidableEq

/-- The standard base64 alphabet (RFC 4648), as used by Python `base64.b64encode`. -/
def b64Alphabet : List Char :=
  "ABCDEFGHIJKLMNOPQRSTUVWXYZabcdefghijklmnopqrstuvwxyz0123456789+/".toList

/-- The alphabet character for a 6-bit value. -/
def b64Char (n : Nat) : Char := b64Alphabet.getD n 'A'

/-- Single-shot base64 encoding of a byte string, exactly as Python
`base64.b64encode(...).decode()` (`Utils.b64encode` in `utils.py`):
each 3-byte group becomes 4 alphabet characters; a trailing group of 1 or 2
bytes is padded with `=` characters. -/
def b64encode : List Nat → List Char
  | [] => []
  | [a] => [b64Char (a / 4), b64Char (a % 4 * 16), '=', '=']
  | [a, b] => [b64Char (a / 4), b64Char (a % 4 * 16 + b / 16), b64Char (b % 16 * 4), '=']
  | a :: b :: c :: rest =>
      b64Char (a / 4) :: b64Char (a % 4 * 16 + b / 16) :: b64Char (b % 16 * 4 + c / 64) ::
        b64Char (c % 64) :: b64encode rest

/-- Base64 encoding is a homomorphism on 3-byte-aligned prefixes: encoding a
concatenation whose first part has length divisible by 3 is the concatenation
of the encodings. -/
theorem b64encode_append :
    ∀ (xs : List Nat), xs.length % 3 = 0 →
      ∀ ys : List Nat, b64encode (xs ++ ys) = b64encode xs ++ b64encode ys
  | [], _, ys => rfl
  | [_], h, _ => by simp at h
  | [_, _], h, _ => by simp at h
  | a :: b :: c :: rest, h, ys => by
      have h' : rest.length % 3 = 0 := by
        simp only [List.length_cons] at h
        omega
      simp only [List.cons_append, b64encode]
      rw [List.append_eq, b64encode_append rest h' ys]

/-- `Utils.largest_multiple_leq` from `utils.py`, specialised to the
nonnegative arguments used by `Base64Stream` (Python floor division on
nonnegative ints agrees with `Nat` division). -/
def Utils.largestMultipleLeqNat (value maxValue : Nat) : Nat :=
  maxValue / value * value

/-- `Utils.largest_multiple_leq` from `utils.py` on Python ints:
`(max_value // value) * value`, raising `ZeroDivisionError` when `value = 0`.
Python `//` is floor division, i.e. `Int.fdiv`. -/
def Utils.largestMultipleLeq (value maxValue : Int) : Except PyError Int :=
  if value = 0 then .error .zeroDivisionError
  else .ok (maxValue.fdiv value * value)

/-- The `StringBuffer` class (`string_buffer.py`, and the identical
`StringBuffer` in `buffer.py`): a list of string fragments with a cached
total length. -/
structure StringBuffer where
  strings : List (List Char)
  length : Nat
deriving DecidableEq

/-- `StringBuffer.new`. -/
def StringBuffer.new : StringBuffer := ⟨[], 0⟩

/-- `StringBuffer.push`: append a fragment and update the cached length. -/
def StringBuffer.push (self : StringBuffer) (s : List Char) : StringBuffer :=
  ⟨self.strings ++ [s], self.length + s.length⟩

/-- `StringBuffer.string()` / `Buffer.value()`: join of all fragments. -/
def StringBuffer.string (self : StringBuffer) : List Char :=
  self.strings.flatten

/-- The `Base64Stream` class of `base_64_stream.py`: a growable byte string,
a string buffer of emitted base64 text, and a cursor marking the boundary
already released. -/
structure Base64Stream where
  byteStr : List Nat
  stringBuffer : StringBuffer
  cursor : Nat
deriving DecidableEq

/-- `Base64Stream.CHUNK_SIZE`. -/
def Base64Stream.CHUNK_SIZE : Nat := 3

/-- `Base64Stream.new()`. -/
def Base64Stream.new : Base64Stream := ⟨[], StringBuffer.new, 0⟩

/-- `Base64Stream.length()`. -/
def Base64Stream.length (self : Base64Stream) : Nat := self.byteStr.length

/-- `Base64Stream.extend(byte_str, finish=...)`: append the data, compute the
release boundary (`length` when finishing, else the largest multiple of 3 not
exceeding `length`), base64-encode the Python slice `byte_str[cursor:end]`
(both bounds are nonnegative here, so the slice is take-then-drop), push the
text onto the string buffer and set the cursor to the boundary.  No statement
of the body can raise, so the embedding is total. -/
def Base64Stream.extend (self : Base64Stream) (byteStr : List Nat) (finish : Bool) :
    Base64Stream × List Char :=
  let self := { self with byteStr := self.byteStr ++ byteStr }
  let e := if finish then self.length
           else Utils.largestMultipleLeqNat Base64Stream.CHUNK_SIZE self.length
  let sliced := (self.byteStr.take e).drop self.cursor
  let base64Str := b64encode sliced
  ({ self with cursor := e, stringBuffer := self.stringBuffer.push base64Str }, base64Str)

/-- `Base64Stream.finish()`. -/
def Base64Stream.finish (self : Base64Stream) : Base64Stream × List Char :=
  self.extend [] true

/-- `Base64Stream.string()`. -/
def Base64Stream.string (self : Base64Stream) : List Char :=
  self.stringBuffer.string

/-- Run a sequence of `extend` calls (data, finish-flag) from a given state,
collecting the state and the returned texts in call order. -/
def Base64Stream.runFrom (self : Base64Stream) :
    List (List Nat × Bool) → Base64Stream × List (List Char)
  | [] => (self, [])
  | c :: rest =>
      let r := self.extend c.1 c.2
      let rr := Base64Stream.runFrom r.1 rest
      (rr.1, r.2 :: rr.2)

/-- Run a sequence of `extend` calls on a fresh `Base64Stream`. -/
def Base64Stream.run (calls : List (List Nat × Bool)) : Base64Stream × List (List Char) :=
  Base64Stream.new.runFrom calls


/-- The components of a non-finishing `extend`, read off the definition. -/
theorem Base64Stream.extend_false_eq (s : Base64Stream) (d : List Nat) :
    s.extend d false =
      ({ byteStr := s.byteStr ++ d,
         stringBuffer := s.stringBuffer.push
           (b64encode (((s.byteStr ++ d).take ((s.byteStr ++ d).length / 3 * 3)).drop s.cursor)),
         cursor := (s.byteStr ++ d).length / 3 * 3 },
       b64encode (((s.byteStr ++ d).take ((s.byteStr ++ d).length / 3 * 3)).drop s.cursor)) :=
  rfl

/-- The components of a finishing `extend`, read off the definition. -/
theorem Base64Stream.extend_true_eq (s : Base64Stream) (d : List Nat) :
    s.extend d true =
      ({ byteStr := s.byteStr ++ d,
         stringBuffer := s.stringBuffer.push
           (b64encode (((s.byteStr ++ d).take (s.byteStr ++ d).length).drop s.cursor)),
         cursor := (s.byteStr ++ d).length },
       b64encode (((s.byteStr ++ d).take (s.byteStr ++ d).length).drop s.cursor)) :=
  rfl

/-- Each `extend` appends exactly its returned text to the accumulated string. -/
theorem Base64Stream.extend_string (s : Base64Stream) (d : List Nat) (f : Bool) :
    ((s.extend d f).1).string = s.string ++ (s.extend d f).2 := by
  cases f
  · rw [Base64Stream.extend_false_eq]
    simp [Base64Stream.string, StringBuffer.string, StringBuffer.push]
  · rw [Base64Stream.extend_true_eq]
    simp [Base64Stream.string, StringBuffer.string, StringBuffer.push]

/-- Splitting a base64 encoding of a prefix at an interior 3-aligned cut. -/
theorem b64encode_take_drop (l : List Nat) (c e : Nat) (hc3 : c % 3 = 0)
    (hce : c ≤ e) (hcl : c ≤ l.length) :
    b64encode (l.take e) = b64encode (l.take c) ++ b64encode ((l.take e).drop c) := by
  have h1 : (l.take e).take c = l.take c := by
    rw [List.take_take, Nat.min_eq_left hce]
  have h2 : ((l.take e).take c).length % 3 = 0 := by
    rw [h1, List.length_take, Nat.min_eq_left hcl]
    exact hc3
  calc b64encode (l.take e)
      = b64encode ((l.take e).take c ++ (l.take e).drop c) := by
        rw [List.take_append_drop]
    _ = b64encode ((l.take e).take c) ++ b64encode ((l.take e).drop c) :=
        b64encode_append _ h2 _
    _ = b64encode (l.take c) ++ b64encode ((l.take e).drop c) := by rw [h1]

/-- The reachability invariant of `Base64Stream` along non-finishing calls:
the cursor sits at the largest multiple of 3 not exceeding the length, and the
accumulated text is the single-shot encoding of the released prefix. -/
def Base64Stream.Good (s : Base64Stream) : Prop :=
  s.cursor = s.byteStr.length / 3 * 3 ∧
  s.string = b64encode (s.byteStr.take s.cursor)

/-- A fresh stream satisfies the invariant. -/
theorem Base64Stream.good_new : Base64Stream.new.Good := by
  constructor <;> rfl

/-- A non-finishing `extend` preserves the invariant. -/
theorem Base64Stream.good_extend_false (s : Base64Stream) (d : List Nat) (h : s.Good) :
    ((s.extend d false).1).Good := by
  obtain ⟨hc, hs⟩ := h
  have hcl : s.cursor ≤ s.byteStr.length := by
    rw [hc]; exact Nat.div_mul_le_self _ _
  have hce : s.cursor ≤ (s.byteStr ++ d).length / 3 * 3 := by
    rw [hc]
    exact Nat.mul_le_mul_right 3 (Nat.div_le_div_right (by simp))
  have hc3 : s.cursor % 3 = 0 := by
    rw [hc]; exact Nat.mul_mod_left _ _
  have hcl' : s.cursor ≤ (s.byteStr ++ d).length := le_trans hcl (by simp)
  have htake : (s.byteStr ++ d).take s.cursor = s.byteStr.take s.cursor :=
    List.take_append_of_le_length hcl
  have key : b64encode ((s.byteStr ++ d).take ((s.byteStr ++ d).length / 3 * 3))
      = s.string ++
        b64encode (((s.byteStr ++ d).take ((s.byteStr ++ d).length / 3 * 3)).drop s.cursor) := by
    rw [b64encode_take_drop (s.byteStr ++ d) s.cursor ((s.byteStr ++ d).length / 3 * 3)
      hc3 hce hcl', htake, ← hs]
  rw [Base64Stream.extend_false_eq]
  refine ⟨rfl, ?_⟩
  show (s.stringBuffer.push _).string = _
  simp only [StringBuffer.string, StringBuffer.push, List.flatten_append,
    List.flatten_cons, List.flatten_nil, List.append_nil]
  rw [key]
  rfl

/-- A finishing `extend` from an invariant state yields the full single-shot
encoding: afterwards the cursor equals the length and the accumulated text is
the base64 of the whole buffer. -/
theorem Base64Stream.finish_state (s : Base64Stream) (d : List Nat) (h : s.Good) :
    ((s.extend d true).1).byteStr = s.byteStr ++ d ∧
    ((s.extend d true).1).cursor = (s.byteStr ++ d).length ∧
    ((s.extend d true).1).string = b64encode (s.byteStr ++ d) := by
  obtain ⟨hc, hs⟩ := h
  have hcl : s.cursor ≤ s.byteStr.length := by
    rw [hc]; exact Nat.div_mul_le_self _ _
  have hc3 : s.cursor % 3 = 0 := by
    rw [hc]; exact Nat.mul_mod_left _ _
  have hcl' : s.cursor ≤ (s.byteStr ++ d).length := le_trans hcl (by simp)
  have htake : (s.byteStr ++ d).take s.cursor = s.byteStr.take s.cursor :=
    List.take_append_of_le_length hcl
  have key : b64encode ((s.byteStr ++ d).take (s.byteStr ++ d).length)
      = s.string ++
        b64encode (((s.byteStr ++ d).take (s.byteStr ++ d).length).drop s.cursor) := by
    rw [b64encode_take_drop (s.byteStr ++ d) s.cursor (s.byteStr ++ d).length
      hc3 hcl' hcl', htake, ← hs]
  rw [Base64Stream.extend_true_eq]
  refine ⟨rfl, rfl, ?_⟩
  show (s.stringBuffer.push _).string = _
  simp only [StringBuffer.string, StringBuffer.push, List.flatten_append,
    List.flatten_cons, List.flatten_nil, List.append_nil]
  conv_rhs => rw [← List.take_length (s.byteStr ++ d)]
  rw [key]
  rfl

/-- `extend` appends its data to the internal byte string. -/
theorem Base64Stream.extend_byteStr (s : Base64Stream) (d : List Nat) (f : Bool) :
    ((s.extend d f).1).byteStr = s.byteStr ++ d := by
  cases f <;> rfl

/-- Running a concatenation of call lists runs them in sequence. -/
theorem Base64Stream.runFrom_append (s : Base64Stream) (l1 l2 : List (List Nat × Bool)) :
    s.runFrom (l1 ++ l2) =
      (((s.runFrom l1).1.runFrom l2).1,
        (s.runFrom l1).2 ++ ((s.runFrom l1).1.runFrom l2).2) := by
  induction l1 generalizing s with
  | nil => simp [Base64Stream.runFrom]
  | cons c rest ih => simp [Base64Stream.runFrom, ih]

/-- The accumulated string after a run is the starting string followed by the
concatenation of all returned texts, in call order. -/
theorem Base64Stream.runFrom_string (s : Base64Stream) (calls : List (List Nat × Bool)) :
    ((s.runFrom calls).1).string = s.string ++ ((s.runFrom calls).2).flatten := by
  induction calls generalizing s with
  | nil => simp [Base64Stream.runFrom]
  | cons c rest ih =>
      simp only [Base64Stream.runFrom, List.flatten_cons]
      rw [ih, Base64Stream.extend_string, List.append_assoc]

/-- The internal byte string after a run is the starting byte string followed
by the concatenation of all data arguments. -/
theorem Base64Stream.runFrom_byteStr (s : Base64Stream) (calls : List (List Nat × Bool)) :
    ((s.runFrom calls).1).byteStr = s.byteStr ++ (calls.map Prod.fst).flatten := by
  induction calls generalizing s with
  | nil => simp [Base64Stream.runFrom]
  | cons c rest ih =>
      simp only [Base64Stream.runFrom, List.map_cons, List.flatten_cons]
      rw [ih, Base64Stream.extend_byteStr, List.append_assoc]

/-- The invariant is preserved by any run of non-finishing calls. -/
theorem Base64Stream.good_runFrom_false (s : Base64Stream) (ds : List (List Nat))
    (h : s.Good) :
    ((s.runFrom (ds.map (fun d => (d, false)))).1).Good := by
  induction ds generalizing s with
  | nil => exact h
  | cons d rest ih =>
      simp only [List.map_cons, Base64Stream.runFrom]
      exact ih _ (Base64Stream.good_extend_false s d h)

/-- C1: for every input byte sequence and every split of it into a finite
sequence of `extend` calls followed by one `finish` call, the accumulated text
reported by `Base64Stream.string()` after the finish equals the single-shot
base64 encoding of the concatenation of all input bytes; equivalently, the
concatenation of the texts returned by every call, in call order, equals that
single-shot encoding. -/
theorem base64Stream_chunked_equals_single_shot (ds : List (List Nat)) :
    ((Base64Stream.run (ds.map (fun d => (d, false)) ++ [([], true)])).1).string
        = b64encode ds.flatten ∧
    ((Base64Stream.run (ds.map (fun d => (d, false)) ++ [([], true)])).2).flatten
        = b64encode ds.flatten := by
  have hgood := Base64Stream.good_runFrom_false Base64Stream.new ds Base64Stream.good_new
  have hbyte := Base64Stream.runFrom_byteStr Base64Stream.new (ds.map (fun d => (d, false)))
  have hmap : ((ds.map (fun d => (d, false))).map Prod.fst) = ds := by
    rw [List.map_map]
    exact List.map_id'' (fun x => rfl) ds
  rw [hmap] at hbyte
  have hbyte' : ((Base64Stream.new.runFrom (ds.map (fun d => (d, false)))).1).byteStr
      = ds.flatten := by
    rw [hbyte]; rfl
  have hfin := Base64Stream.finish_state
    ((Base64Stream.new.runFrom (ds.map (fun d => (d, false)))).1) [] hgood
  have hstring : ((Base64Stream.run (ds.map (fun d => (d, false)) ++ [([], true)])).1).string
      = b64encode ds.flatten := by
    rw [Base64Stream.run, Base64Stream.runFrom_append]
    simp only [Base64Stream.runFrom]
    rw [hfin.2.2, hbyte', List.append_nil]
  refine ⟨hstring, ?_⟩
  have hjoin := Base64Stream.runFrom_string Base64Stream.new
    (ds.map (fun d => (d, false)) ++ [([], true)])
  rw [Base64Stream.run] at hstring ⊢
  rw [hjoin] at hstring
  simpa using hstring

/-- When the cursor has caught up with the buffer length, an `extend` with
empty data returns the empty text (the base64 encoding of an empty slice). -/
theorem Base64Stream.extend_empty_at_end (s : Base64Stream) (f : Bool)
    (h : s.cursor = s.byteStr.length) : (s.extend [] f).2 = [] := by
  have hlen : (s.byteStr ++ ([] : List Nat)).length = s.byteStr.length := by simp
  cases f
  · rw [Base64Stream.extend_false_eq]
    have hnil : ((s.byteStr ++ []).take ((s.byteStr ++ []).length / 3 * 3)).drop s.cursor
        = [] := by
      apply List.drop_eq_nil_of_le
      rw [List.length_take, hlen, h]
      have := Nat.div_mul_le_self s.byteStr.length 3
      omega
    rw [hnil]
    rfl
  · rw [Base64Stream.extend_true_eq]
    have hnil : ((s.byteStr ++ []).take (s.byteStr ++ []).length).drop s.cursor = [] := by
      apply List.drop_eq_nil_of_le
      rw [List.length_take, hlen, h]
      omega
    rw [hnil]
    rfl

/-- A finishing `extend` leaves the cursor at the buffer length. -/
theorem Base64Stream.extend_true_cursor (s : Base64Stream) (d : List Nat) :
    ((s.extend d true).1).cursor = ((s.extend d true).1).byteStr.length :=
  rfl

/-- Running a single call is one `extend`. -/
theorem Base64Stream.runFrom_singleton (s : Base64Stream) (c : List Nat × Bool) :
    s.runFrom [c] = ((s.extend c.1 c.2).1, [(s.extend c.1 c.2).2]) :=
  rfl

/-- C9: after any call sequence whose last call has `finish=true`, a
subsequent `extend` with empty input returns the empty encoded text (and,
being a total function of the state, does not raise). -/
theorem base64Stream_extend_empty_after_finish (calls : List (List Nat × Bool))
    (d : List Nat) (f : Bool) :
    (((Base64Stream.run (calls ++ [(d, true)])).1).extend [] f).2 = [] := by
  apply Base64Stream.extend_empty_at_end
  rw [Base64Stream.run, Base64Stream.runFrom_append, Base64Stream.runFrom_singleton]
  exact Base64Stream.extend_true_cursor _ _

/-- Appending a run of non-finishing calls appends the concatenated data. -/
theorem Base64Stream.runFrom_false_byteStr (s : Base64Stream) (ds : List (List Nat)) :
    ((s.runFrom (ds.map (fun d => (d, false)))).1).byteStr = s.byteStr ++ ds.flatten := by
  have hmap : ((ds.map (fun d => (d, false))).map Prod.fst) = ds := by
    rw [List.map_map]
    exact List.map_id'' (fun _ => rfl) ds
  rw [Base64Stream.runFrom_byteStr, hmap]

/-- A finish issued when the buffered length is a multiple of 3 lands back in
the invariant: the stream remains a correct encoder afterwards. -/
theorem Base64Stream.good_after_aligned_finish (s : Base64Stream) (d : List Nat)
    (h : s.Good) (h3 : ((s.byteStr ++ d).length) % 3 = 0) :
    ((s.extend d true).1).Good := by
  obtain ⟨hb, hc, hs⟩ := Base64Stream.finish_state s d h
  refine ⟨?_, ?_⟩
  · rw [hc, hb]
    omega
  · rw [hs, hc, hb, List.take_length]

/-- C8 (amended): after the stream has been finished, subsequent `extend`
calls — including calls carrying non-empty data — return normally instead of
raising a StreamAlreadyFinished error (no such error exists in the code).
The encoder keeps operating: when the finished length was a multiple of 3,
further extends followed by a second finish accumulate exactly the
single-shot base64 encoding of all bytes ever appended. -/
theorem base64Stream_no_stream_already_finished (ds1 ds2 : List (List Nat))
    (h3 : (ds1.flatten).length % 3 = 0) :
    ((Base64Stream.run ((ds1.map (fun d => (d, false)) ++ [([], true)])
        ++ (ds2.map (fun d => (d, false)) ++ [([], true)]))).1).string
      = b64encode (ds1.flatten ++ ds2.flatten) := by
  have g0 : ((Base64Stream.new.runFrom (ds1.map (fun d => (d, false)))).1).Good :=
    Base64Stream.good_runFrom_false _ _ Base64Stream.good_new
  have b0 : ((Base64Stream.new.runFrom (ds1.map (fun d => (d, false)))).1).byteStr
      = ds1.flatten := by
    rw [Base64Stream.runFrom_false_byteStr]
    rfl
  have g1 : ((((Base64Stream.new.runFrom (ds1.map (fun d => (d, false)))).1).extend
      [] true).1).Good := by
    apply Base64Stream.good_after_aligned_finish _ _ g0
    rw [List.append_nil, b0]
    exact h3
  have b1 : ((((Base64Stream.new.runFrom (ds1.map (fun d => (d, false)))).1).extend
      [] true).1).byteStr = ds1.flatten := by
    rw [Base64Stream.extend_byteStr, b0, List.append_nil]
  have g2 := Base64Stream.good_runFrom_false _ ds2 g1
  have b2 : (((((Base64Stream.new.runFrom (ds1.map (fun d => (d, false)))).1).extend
      [] true).1).runFrom (ds2.map (fun d => (d, false)))).1.byteStr
      = ds1.flatten ++ ds2.flatten := by
    rw [Base64Stream.runFrom_false_byteStr, b1]
  have hfin := Base64Stream.finish_state _ [] g2
  rw [Base64Stream.run, Base64Stream.runFrom_append]
  simp only
  rw [Base64Stream.runFrom_append, Base64Stream.runFrom_singleton]
  simp only
  rw [Base64Stream.runFrom_append, Base64Stream.runFrom_singleton]
  simp only
  rw [hfin.2.2, b2, List.append_nil]

/-- Slicing `[m, e)` out of `i ++ d` when the cut `e` reaches past `i`:
the slice is the tail of `i` from `m` followed by a prefix of `d`. -/
theorem take_drop_reach (i d : List Nat) (m e : Nat) (hm : m ≤ i.length)
    (he : i.length ≤ e) :
    ((i ++ d).take e).drop m = i.drop m ++ d.take (e - i.length) := by
  rw [List.take_append_eq_append_take, List.take_of_length_le he,
      List.drop_append_eq_append_drop, Nat.sub_eq_zero_of_le hm, List.drop_zero]

/-- C10 counterexample: finish at length 4 (not a multiple of 3), then an
empty extend (cursor moves back to 3), then a non-empty extend of one byte:
the new length 5 is at least the cursor's old position 4, yet the call
returns the empty text — nothing is re-released, contrary to the claim. -/
theorem base64Stream_c10_counterexample :
    ((((Base64Stream.new.extend [97, 97, 97, 97] true).1.extend [] false).1.extend
        [120] false).2) = [] := by
  rfl

/-- C10 (amended): if `finish` is called when the total buffered length `n`
is not a multiple of 3, a subsequent `extend` with `finish=false` and empty
data moves the cursor backward from `n` to `n / 3 * 3` while returning the
encoding of an empty slice; after that, a further extend whose data brings
the aligned release boundary `(n + |d|) / 3 * 3` to at least `n` re-encodes
and returns the bytes at positions `n / 3 * 3 .. n - 1` (already released by
the finish call) followed by the newly released prefix of the data. -/
theorem base64Stream_post_finish_duplication (ds : List (List Nat)) (d : List Nat)
    (h3 : (ds.flatten).length % 3 ≠ 0)
    (hre : (ds.flatten).length ≤ ((ds.flatten).length + d.length) / 3 * 3) :
    (((Base64Stream.run (ds.map (fun x => (x, false)) ++ [([], true)])).1).extend
        [] false).2 = [] ∧
    ((((Base64Stream.run (ds.map (fun x => (x, false)) ++ [([], true)])).1).extend
        [] false).1).cursor = (ds.flatten).length / 3 * 3 ∧
    (ds.flatten).length / 3 * 3 < (ds.flatten).length ∧
    (((((Base64Stream.run (ds.map (fun x => (x, false)) ++ [([], true)])).1).extend
        [] false).1).extend d false).2
      = b64encode ((ds.flatten).drop ((ds.flatten).length / 3 * 3)
          ++ d.take (((ds.flatten).length + d.length) / 3 * 3 - (ds.flatten).length)) := by
  have b0 : ((Base64Stream.new.runFrom (ds.map (fun x => (x, false)))).1).byteStr
      = ds.flatten := by
    rw [Base64Stream.runFrom_false_byteStr]
    rfl
  have hsplit : (Base64Stream.run (ds.map (fun x => (x, false)) ++ [([], true)])).1
      = (((Base64Stream.new.runFrom (ds.map (fun x => (x, false)))).1).extend [] true).1 := by
    rw [Base64Stream.run, Base64Stream.runFrom_append, Base64Stream.runFrom_singleton]
  have hb : ((Base64Stream.run (ds.map (fun x => (x, false)) ++ [([], true)])).1).byteStr
      = ds.flatten := by
    rw [hsplit, Base64Stream.extend_byteStr, b0, List.append_nil]
  have hcur : ((Base64Stream.run (ds.map (fun x => (x, false)) ++ [([], true)])).1).cursor
      = (ds.flatten).length := by
    rw [hsplit, Base64Stream.extend_true_eq]
    simp [b0]
  have hout1 : (((Base64Stream.run (ds.map (fun x => (x, false)) ++ [([], true)])).1).extend
      [] false).2 = [] := by
    rw [Base64Stream.extend_false_eq]
    simp only [List.append_nil, hb, hcur]
    have hnil : ((ds.flatten).take ((ds.flatten).length / 3 * 3)).drop (ds.flatten).length
        = [] := by
      apply List.drop_eq_nil_of_le
      rw [List.length_take]
      have := Nat.div_mul_le_self (ds.flatten).length 3
      omega
    rw [hnil]
    rfl
  have hcur1 : ((((Base64Stream.run (ds.map (fun x => (x, false)) ++ [([], true)])).1).extend
      [] false).1).cursor = (ds.flatten).length / 3 * 3 := by
    rw [Base64Stream.extend_false_eq]
    simp [hb]
  have hb1 : ((((Base64Stream.run (ds.map (fun x => (x, false)) ++ [([], true)])).1).extend
      [] false).1).byteStr = ds.flatten := by
    rw [Base64Stream.extend_byteStr, hb, List.append_nil]
  refine ⟨hout1, hcur1, by omega, ?_⟩
  rw [Base64Stream.extend_false_eq]
  simp only [hb1, hcur1, List.length_append]
  rw [take_drop_reach _ _ _ _ (Nat.div_mul_le_self _ _) hre]

/-- Clamping of one Python slice bound against a sequence length: a negative
bound counts from the end (clamped below at 0), a nonnegative bound is
clamped above at the length. -/
def pyBound (len : Nat) (i : Int) : Nat :=
  if i < 0 then ((len : Int) + i).toNat else min i.toNat len

/-- The `ByteBuffer` class of `buffer.py`: a growable byte array. -/
structure ByteBuffer where
  byteArray : List Nat
deriving DecidableEq

/-- `ByteBuffer.new(byte_str=b"")`. -/
def ByteBuffer.new (byteStr : List Nat := []) : ByteBuffer :=
  ⟨byteStr⟩

/-- `ByteBuffer.len()`. -/
def ByteBuffer.len (self : ByteBuffer) : Nat := self.byteArray.length

/-- `ByteBuffer.push(value)`: extend the byte array. -/
def ByteBuffer.push (self : ByteBuffer) (value : List Nat) : ByteBuffer :=
  ⟨self.byteArray ++ value⟩

/-- `ByteBuffer.value()`: an independent copy of the contents. -/
def ByteBuffer.value (self : ByteBuffer) : List Nat := self.byteArray

/-- `ByteBuffer.slice(begin=..., end=...)`: `self.byte_array[begin:end]` with
Python slice semantics — bounds are clamped, never raising, and `None` for
the end bound means the current length.  The method reads the buffer without
mutating it, so it is embedded as a pure function of the state. -/
def ByteBuffer.slice (self : ByteBuffer) (b : Int) (e : Option Int) : List Nat :=
  let bi := pyBound self.len b
  let ei := match e with
    | none => self.len
    | some e => pyBound self.len e
  (self.byteArray.take ei).drop bi

/-- The `B64Chunk` dataclass of `b64_stream.py`: an immutable pair of a raw
byte slice and its base64 text, built by `B64Chunk.new`. -/
structure B64Chunk where
  byteStr : List Nat
  string : List Char
deriving DecidableEq

/-- `B64Chunk.new(byte_str=...)`. -/
def B64Chunk.new (byteStr : List Nat) : B64Chunk :=
  ⟨byteStr, b64encode byteStr⟩

/-- The `ChunkedByteBuffer` dataclass of `b64_stream.py`.  It is declared
`@dataclasses.dataclass(frozen=True)`, which makes every attribute
assignment on an instance raise `dataclasses.FrozenInstanceError`. -/
structure ChunkedByteBuffer where
  byteBuffer : ByteBuffer
  chunkSize : Int
  cursor : Int
deriving DecidableEq

/-- `ChunkedByteBuffer.new(chunk_size=...)`: no validation of `chunk_size`
is performed; `INITIAL_CURSOR = 0`. -/
def ChunkedByteBuffer.new (chunkSize : Int) : ChunkedByteBuffer :=
  ⟨ByteBuffer.new, chunkSize, 0⟩

/-- `ChunkedByteBuffer.extend(byte_str, finish=...)`: pushes the data into
the (mutable, nested) `ByteBuffer`, computes the release boundary — raising
`ZeroDivisionError` inside `Utils.largest_multiple_leq` when `chunk_size` is
0 and `finish` is false — takes the slice, and then executes
`self.cursor = end`.  Because the dataclass is frozen, that assignment
raises `FrozenInstanceError`, so the method never returns the slice.  The
embedding returns the state as mutated before the raise together with the
raised error. -/
def ChunkedByteBuffer.extend (self : ChunkedByteBuffer) (byteStr : List Nat)
    (finish : Bool) : ChunkedByteBuffer × Except PyError (List Nat) :=
  let self := { self with byteBuffer := self.byteBuffer.push byteStr }
  match (if finish then Except.ok (self.byteBuffer.len : Int)
         else Utils.largestMultipleLeq self.chunkSize (self.byteBuffer.len : Int)) with
  | .error err => (self, .error err)
  | .ok e =>
      let _byteStr := self.byteBuffer.slice self.cursor (some e)
      -- `self.cursor = end` on a frozen dataclass: FrozenInstanceError
      (self, .error .frozenInstanceError)

/-- `ChunkedByteBuffer.finish()`. -/
def ChunkedByteBuffer.finish (self : ChunkedByteBuffer) :
    ChunkedByteBuffer × Except PyError (List Nat) :=
  self.extend [] true

/-- `StringBuffer.value()` of the `buffer.py` variant (same as `string()`). -/
def StringBuffer.value (self : StringBuffer) : List Char :=
  self.strings.flatten

/-- The `B64Stream` class of `b64_stream.py`: a `ChunkedByteBuffer` with
`CHUNK_SIZE = 3` plus a string buffer of emitted base64 text. -/
structure B64Stream where
  chunkedByteBuffer : ChunkedByteBuffer
  b64String : StringBuffer
deriving DecidableEq

/-- `B64Stream.CHUNK_SIZE`. -/
def B64Stream.CHUNK_SIZE : Int := 3

/-- `B64Stream.new()`. -/
def B64Stream.new : B64Stream :=
  ⟨ChunkedByteBuffer.new B64Stream.CHUNK_SIZE, StringBuffer.new⟩

/-- `B64Stream.extend(byte_str, finish=...)`: forwards to the chunked byte
buffer; an exception raised there propagates to the caller (with the nested
buffer already mutated). -/
def B64Stream.extend (self : B64Stream) (byteStr : List Nat) (finish : Bool) :
    B64Stream × Except PyError B64Chunk :=
  match self.chunkedByteBuffer.extend byteStr finish with
  | (cbb, .error err) => ({ self with chunkedByteBuffer := cbb }, .error err)
  | (cbb, .ok bs) =>
      let chunk := B64Chunk.new bs
      ({ chunkedByteBuffer := cbb, b64String := self.b64String.push chunk.string },
        .ok chunk)

/-- `B64Stream.finish()`. -/
def B64Stream.finish (self : B64Stream) : B64Stream × Except PyError B64Chunk :=
  self.extend [] true

/-- `B64Stream.string()`. -/
def B64Stream.string (self : B64Stream) : List Char :=
  self.b64String.value

/-- C2 (the code bug, evaluated at a failing input): a fresh
`ChunkedByteBuffer` with `chunk_size = 3` fed 3 bytes does not return the
aligned slice `[1, 2, 3]`; the data is appended and then the frozen-instance
assignment `self.cursor = end` raises `FrozenInstanceError`. -/
theorem chunkedByteBuffer_extend_raises_at_failing_input :
    (ChunkedByteBuffer.new 3).extend [1, 2, 3] false
      = (⟨⟨[1, 2, 3]⟩, 3, 0⟩, Except.error PyError.frozenInstanceError) := by
  rfl

/-- C3 counterexample: with `chunk_size = 0` and `finish=false` the call
raises `ZeroDivisionError` (inside `Utils.largest_multiple_leq`, reached
before the frozen-instance assignment), not `FrozenInstanceError`. -/
theorem chunkedByteBuffer_zero_chunk_size_zero_division :
    (ChunkedByteBuffer.new 0).extend [] false
      = (⟨⟨[]⟩, 0, 0⟩, Except.error PyError.zeroDivisionError) := by
  rfl

/-- C3 (amended): for every state whose `chunk_size` is nonzero — in
particular every state reachable through `B64Stream`, whose chunk size is
3 — and for every input, `ChunkedByteBuffer.extend` appends the data and
then raises `FrozenInstanceError`, never returning a slice; consequently
every `B64Stream.extend` (and hence `finish`) raises `FrozenInstanceError`
and never returns a `B64Chunk`.  (With `chunk_size = 0` and `finish=false`
the raised error is `ZeroDivisionError` instead.) -/
theorem chunkedByteBuffer_extend_always_raises :
    (∀ (s : ChunkedByteBuffer) (d : List Nat) (f : Bool),
      s.chunkSize ≠ 0 ∨ f = true →
        s.extend d f = ({ s with byteBuffer := s.byteBuffer.push d },
          Except.error PyError.frozenInstanceError)) ∧
    (∀ (d : List Nat) (f : Bool),
      (B64Stream.new.extend d f).2 = Except.error PyError.frozenInstanceError) := by
  have h1 : ∀ (s : ChunkedByteBuffer) (d : List Nat) (f : Bool),
      s.chunkSize ≠ 0 ∨ f = true →
        s.extend d f = ({ s with byteBuffer := s.byteBuffer.push d },
          Except.error PyError.frozenInstanceError) := by
    intro s d f h
    cases f
    · have hcs : s.chunkSize ≠ 0 := by
        rcases h with h | h
        · exact h
        · exact absurd h (by simp)
      simp [ChunkedByteBuffer.extend, Utils.largestMultipleLeq, hcs]
    · rfl
  refine ⟨h1, ?_⟩
  intro d f
  cases f <;> rfl

/-- C7 counterexample: constructing a `ChunkedByteBuffer` with a
non-positive `chunk_size` succeeds and produces an instance carrying that
chunk size — no `InvalidConfiguration` error is raised. -/
theorem chunkedByteBuffer_new_accepts_nonpositive :
    (ChunkedByteBuffer.new 0).chunkSize = 0 ∧
    (ChunkedByteBuffer.new (-2)).chunkSize = -2 := by
  exact ⟨rfl, rfl⟩

/-- C7 (amended): `ChunkedByteBuffer.new` performs no validation: for every
`chunk_size`, including every non-positive one, construction succeeds and
yields the instance with that chunk size, an empty buffer and cursor 0.
(A chunk size of 0 then makes the first non-finishing `extend` raise
`ZeroDivisionError`.) -/
theorem chunkedByteBuffer_new_no_validation (cs : Int) (_h : cs ≤ 0) :
    ChunkedByteBuffer.new cs = ⟨⟨[]⟩, cs, 0⟩ := by
  rfl

/-- C7 witness. -/
theorem chunkedByteBuffer_new_no_validation_witness :
    (-1 : Int) ≤ 0 ∧ ChunkedByteBuffer.new (-1) = ⟨⟨[]⟩, -1, 0⟩ :=
  ⟨by decide, chunkedByteBuffer_new_no_validation (-1) (by decide)⟩

/-- C1 counterexample: on `B64Stream` (the `b64_stream.py` encoder) even the
trivial split — zero `extend` calls followed by one `finish()` — does not
produce the single-shot encoding of the empty input: the call raises
`FrozenInstanceError` out of the frozen `ChunkedByteBuffer`, so no
`B64Chunk` is ever returned and `string()` never reflects a finish. -/
theorem b64Stream_finish_raises :
    (B64Stream.new.finish).2 = Except.error PyError.frozenInstanceError := by
  rfl

/-- C6 counterexample: slicing a 2-byte buffer with end bound 5 — outside
the current buffer length — returns the clamped copy `[1, 2]` instead of
failing with an index-out-of-range error. -/
theorem byteBuffer_slice_out_of_range_clamps :
    (ByteBuffer.new [1, 2]).slice 0 (some 5) = [1, 2] := by
  rfl

/-- C6 (amended): `ByteBuffer.slice` follows Python slice semantics: bounds
beyond the current buffer length are silently clamped to the valid range —
an end bound past the length behaves exactly like "to the end", and a begin
bound past the length yields the empty slice.  The call never raises, and
the buffer itself is read, not mutated (the embedding is a pure function of
the state). -/
theorem byteBuffer_slice_clamps :
    (∀ (bb : ByteBuffer) (b e : Nat), bb.len ≤ e →
        bb.slice (b : Int) (some (e : Int)) = bb.slice (b : Int) none) ∧
    (∀ (bb : ByteBuffer) (b : Nat) (e : Option Int), bb.len ≤ b →
        bb.slice (b : Int) e = []) := by
  constructor
  · intro bb b e h
    have he : pyBound bb.len (e : Int) = bb.len := by
      simp only [pyBound]
      rw [if_neg (by omega : ¬((e : Int) < 0)), Int.toNat_natCast]
      exact Nat.min_eq_right h
    simp only [ByteBuffer.slice]
    rw [he]
  · intro bb b e h
    have hb : pyBound bb.len (b : Int) = bb.len := by
      simp only [pyBound]
      rw [if_neg (by omega : ¬((b : Int) < 0)), Int.toNat_natCast]
      exact Nat.min_eq_right h
    cases e with
    | none =>
        simp only [ByteBuffer.slice]
        rw [hb]
        apply List.drop_eq_nil_of_le
        rw [List.length_take]
        exact Nat.min_le_right _ _
    | some e =>
        simp only [ByteBuffer.slice]
        rw [hb]
        apply List.drop_eq_nil_of_le
        rw [List.length_take]
        exact Nat.min_le_right _ _

/-- C6 witness. -/
theorem byteBuffer_slice_clamps_witness :
    ((ByteBuffer.new [1, 2, 3]).len ≤ 7 ∧
      (ByteBuffer.new [1, 2, 3]).slice (1 : Int) (some (7 : Int))
        = (ByteBuffer.new [1, 2, 3]).slice (1 : Int) none) ∧
    ((ByteBuffer.new [1, 2, 3]).len ≤ 5 ∧
      (ByteBuffer.new [1, 2, 3]).slice (5 : Int) none = []) :=
  ⟨⟨by decide, byteBuffer_slice_clamps.1 (ByteBuffer.new [1, 2, 3]) 1 7 (by decide)⟩,
    ⟨by decide, byteBuffer_slice_clamps.2 (ByteBuffer.new [1, 2, 3]) 5 none (by decide)⟩⟩

/-- The `AudioInfo` dataclass (`audio.py`): sample rate and channel count. -/
structure AudioInfo where
  sampleRate : Nat
  numChannels : Nat
deriving DecidableEq

/-- The `WavAudioEncoder` class (`audio_encoder.py`).  `wavHeader` stands for
`_wav_byte_buffer`, the RIFF/WAVE header bytes the Python `wave` module
produces for a given `AudioInfo`; the encoder's fixed `pcm_audio_format` and
`header_duration` are folded into it.  Modelled from the spec: the header's
provisional frame count comes from `header_duration.sample_index` in
`mkutils.time` (not part of the sources) and the byte layout from the
external `wave` module; C5 does not depend on the header's contents. -/
structure WavAudioEncoder where
  wavHeader : AudioInfo → List Nat
  yieldedHeader : Bool

/-- `WavAudioEncoder.new(...)`: `INITIAL_YIELDED_HEADER = False`. -/
def WavAudioEncoder.new (wavHeader : AudioInfo → List Nat) : WavAudioEncoder :=
  ⟨wavHeader, false⟩

/-- `WavAudioEncoder.push(audio=..., finish=...)`: the audio batch is given
by its PCM byte payload (`audio.byte_str(...)`, external soundfile output)
and its `AudioInfo`.  If the header was already yielded, return only the
payload; otherwise build the header buffer, mark the header yielded, push
the payload and return the buffer's value.  The `finish` flag is accepted
and ignored, as in the source. -/
def WavAudioEncoder.push (self : WavAudioEncoder) (pcmByteStr : List Nat)
    (info : AudioInfo) (_finish : Bool) : WavAudioEncoder × List Nat :=
  if self.yieldedHeader then (self, pcmByteStr)
  else ({ self with yieldedHeader := true }, self.wavHeader info ++ pcmByteStr)

/-- Run a sequence of `push` calls (payload, info, finish-flag), collecting
the returned byte sequences in call order. -/
def WavAudioEncoder.runFrom (self : WavAudioEncoder) :
    List (List Nat × AudioInfo × Bool) → WavAudioEncoder × List (List Nat)
  | [] => (self, [])
  | c :: rest =>
      let r := self.push c.1 c.2.1 c.2.2
      let rr := WavAudioEncoder.runFrom r.1 rest
      (rr.1, r.2 :: rr.2)

/-- Once the header has been yielded, every further `push` returns exactly
its PCM payload and leaves the state unchanged. -/
theorem WavAudioEncoder.runFrom_yielded (self : WavAudioEncoder)
    (calls : List (List Nat × AudioInfo × Bool)) (h : self.yieldedHeader = true) :
    self.runFrom calls = (self, calls.map (fun c => c.1)) := by
  induction calls with
  | nil => rfl
  | cons c rest ih =>
      simp only [WavAudioEncoder.runFrom, WavAudioEncoder.push, h, if_pos]
      rw [ih]
      rfl

/-- C5: for every N ≥ 1 pushes on a fresh WAV encoder (whatever the finish
flags, which the source ignores), the first push returns the header followed
by its PCM payload and every subsequent push returns only its PCM payload —
so exactly one header appears in the concatenated output, at byte offset 0. -/
theorem wavAudioEncoder_header_exactly_once (hdr : AudioInfo → List Nat)
    (first : List Nat × AudioInfo × Bool) (rest : List (List Nat × AudioInfo × Bool)) :
    ((WavAudioEncoder.new hdr).runFrom (first :: rest)).2
      = (hdr first.2.1 ++ first.1) :: rest.map (fun c => c.1) := by
  simp only [WavAudioEncoder.runFrom]
  rw [show (WavAudioEncoder.new hdr).push first.1 first.2.1 first.2.2
      = (⟨hdr, true⟩, hdr first.2.1 ++ first.1) from rfl]
  rw [WavAudioEncoder.runFrom_yielded ⟨hdr, true⟩ rest rfl]

/-- An audio frame batch (`Audio` in `audio.py`) as the MP3 encoder observes
it: frame count, channel count, sample rate, and the PCM byte payload
`audio.byte_str(pcm_audio_format)` (external soundfile output). -/
structure Audio where
  numFrames : Nat
  numChannels : Nat
  sampleRate : Nat
  pcm : List Nat
deriving DecidableEq

/-- `Audio.is_empty()`: no frames. -/
def Audio.isEmpty (a : Audio) : Bool := a.numFrames == 0

/-- Modelled from the spec: `Audio.silence(num_samples, num_channels,
sample_rate)` builds `numpy.zeros((num_samples, num_channels))`, whose PCM
byte payload under a sample format of `sampleWidth` bytes per sample is
`num_samples * num_channels * sampleWidth` zero bytes. -/
def Audio.silence (sampleWidth numSamples numChannels sampleRate : Nat) : Audio :=
  ⟨numSamples, numChannels, sampleRate,
    List.replicate (numSamples * numChannels * sampleWidth) 0⟩

/-- The `Mp3AudioEncoder` class (`audio_encoder.py`) together with the state
of the external lame codec it owns.  Modelled from the spec: the codec is a
block codec whose `encode` output for a PCM block is the opaque function
`encodeFn`, whose `flush()` output is `flushOut`, and whose flush raises
(`CodecFlushPrecondition`, per the source NOTE and the spec) unless at least
one non-empty block has been submitted — tracked by `lameHasInput`.
`sampleWidth` is the byte width of the encoder's `pcm_audio_format`. -/
structure Mp3AudioEncoder where
  sampleWidth : Nat
  encodeFn : List Nat → List Nat
  flushOut : List Nat
  lameHasInput : Bool
  lameEncoderIsConfigured : Bool
  isEmpty : Bool

/-- `Mp3AudioEncoder.new(...)`: fresh codec, not configured, `is_empty`
initially true. -/
def Mp3AudioEncoder.new (sampleWidth : Nat) (encodeFn : List Nat → List Nat)
    (flushOut : List Nat) : Mp3AudioEncoder :=
  ⟨sampleWidth, encodeFn, flushOut, false, false, true⟩

/-- `Mp3AudioEncoder._push(audio=...)`: encode the batch's PCM bytes through
the codec and update `is_empty` with `self.is_empty &= audio.is_empty()`. -/
def Mp3AudioEncoder._push (self : Mp3AudioEncoder) (audio : Audio) :
    Mp3AudioEncoder × List Nat :=
  let pcmByteStr := audio.pcm
  let mp3ByteStr := self.encodeFn pcmByteStr
  ({ self with
      lameHasInput := self.lameHasInput || !pcmByteStr.isEmpty,
      isEmpty := self.isEmpty && audio.isEmpty }, mp3ByteStr)

/-- `Mp3AudioEncoder.push(audio=..., finish=...)`: configure the codec on
first use, encode the batch, and on `finish` apply the silent-frame
workaround when only empty batches have been observed, then flush. -/
def Mp3AudioEncoder.push (self : Mp3AudioEncoder) (audio : Audio) (finish : Bool) :
    Mp3AudioEncoder × Except PyError (List Nat) :=
  let self := if !self.lameEncoderIsConfigured
              then { self with lameEncoderIsConfigured := true } else self
  let r := self._push audio
  let self := r.1
  let mp3ByteStr := r.2
  if !finish then (self, .ok mp3ByteStr)
  else
    let sb :=
      if self.isEmpty then
        let silentAudio := Audio.silence self.sampleWidth 1 audio.numChannels audio.sampleRate
        let r2 := self._push silentAudio
        (r2.1, mp3ByteStr ++ r2.2)
      else (self, mp3ByteStr)
    -- lame_encoder.flush() raises unless a non-empty block was submitted
    if sb.1.lameHasInput then (sb.1, .ok (sb.2 ++ sb.1.flushOut))
    else (sb.1, .error .codecFlushPrecondition)

/-- Run a sequence of non-finishing `push` calls, keeping only the state. -/
def Mp3AudioEncoder.runPushes (self : Mp3AudioEncoder) : List Audio → Mp3AudioEncoder
  | [] => self
  | a :: rest => Mp3AudioEncoder.runPushes (self.push a false).1 rest

/-- The state after one non-finishing `push`. -/
theorem Mp3AudioEncoder.push_false_eq (self : Mp3AudioEncoder) (audio : Audio) :
    self.push audio false =
      ({ self with
          lameEncoderIsConfigured := true,
          lameHasInput := self.lameHasInput || !audio.pcm.isEmpty,
          isEmpty := self.isEmpty && audio.isEmpty },
        Except.ok (self.encodeFn audio.pcm)) := by
  by_cases h : self.lameEncoderIsConfigured <;>
    simp [Mp3AudioEncoder.push, Mp3AudioEncoder._push, h]

/-- The encoder state after a run of non-finishing pushes: the codec
parameters are unchanged, `is_empty` records whether every batch was empty,
and the codec has received input iff some batch had non-empty PCM bytes. -/
theorem Mp3AudioEncoder.runPushes_state (self : Mp3AudioEncoder) (as : List Audio) :
    (self.runPushes as).sampleWidth = self.sampleWidth ∧
    (self.runPushes as).encodeFn = self.encodeFn ∧
    (self.runPushes as).flushOut = self.flushOut ∧
    (self.runPushes as).isEmpty = (self.isEmpty && as.all Audio.isEmpty) ∧
    (self.runPushes as).lameHasInput
      = (self.lameHasInput || as.any (fun a => !a.pcm.isEmpty)) := by
  induction as generalizing self with
  | nil => simp [Mp3AudioEncoder.runPushes]
  | cons a rest ih =>
      simp only [Mp3AudioEncoder.runPushes, Mp3AudioEncoder.push_false_eq,
        List.all_cons, List.any_cons]
      obtain ⟨h1, h2, h3, h4, h5⟩ := ih { self with
        lameEncoderIsConfigured := true,
        lameHasInput := self.lameHasInput || !a.pcm.isEmpty,
        isEmpty := self.isEmpty && a.isEmpty }
      exact ⟨h1, h2, h3, by rw [h4]; simp [Bool.and_assoc],
        by rw [h5]; simp [Bool.or_assoc]⟩

/-- The result of a finishing `push`, read off the definition: the silent
workaround runs exactly when `is_empty` (updated by this call) holds, and
the flush succeeds exactly when the codec has received a non-empty block. -/
theorem Mp3AudioEncoder.push_true_snd (self : Mp3AudioEncoder) (audio : Audio) :
    (self.push audio true).2 =
      if self.isEmpty && audio.isEmpty then
        (if self.lameHasInput || !audio.pcm.isEmpty
            || !((Audio.silence self.sampleWidth 1 audio.numChannels
                  audio.sampleRate).pcm).isEmpty
         then Except.ok ((self.encodeFn audio.pcm
                ++ self.encodeFn (Audio.silence self.sampleWidth 1 audio.numChannels
                    audio.sampleRate).pcm)
                ++ self.flushOut)
         else Except.error PyError.codecFlushPrecondition)
      else
        (if self.lameHasInput || !audio.pcm.isEmpty
         then Except.ok (self.encodeFn audio.pcm ++ self.flushOut)
         else Except.error PyError.codecFlushPrecondition) := by
  by_cases h : self.lameEncoderIsConfigured <;>
    by_cases hE : self.isEmpty = true ∧ audio.isEmpty = true <;>
      simp [Mp3AudioEncoder.push, Mp3AudioEncoder._push, h, hE, List.append_assoc] <;>
        split <;> rfl

/-- A one-frame silent batch with a positive channel count and sample width
has non-empty PCM bytes. -/
theorem Audio.silence_pcm_nonempty (w c sr : Nat) (hw : 0 < w) (hc : 0 < c) :
    ((Audio.silence w 1 c sr).pcm).isEmpty = false := by
  rw [show (Audio.silence w 1 c sr).pcm = List.replicate (1 * c * w) 0 from rfl]
  cases hn : 1 * c * w with
  | zero =>
      exfalso
      rcases Nat.mul_eq_zero.mp hn with h | h
      · rcases Nat.mul_eq_zero.mp h with h' | h'
        · omega
        · omega
      · omega
  | succ k => rfl

/-- C4: on a fresh MP3 encoder, after any history of non-finishing pushes, a
final `push(audio, finish=true)` never lets the codec's flush precondition
escape: it succeeds, returning this call's encode output, then the
minimal-silent-frame encode output — present exactly when every batch
observed so far, including the current one, was empty — then the flush
output; and the result is a non-empty byte sequence.  In particular
`push(empty_batch, finish=true)` as the very first and only call succeeds
and returns non-empty bytes.  Hypotheses: the codec's flush output is
non-empty, a batch's PCM byte payload is empty exactly when the batch has no
frames, and the sample width and the final batch's channel count are
positive (so the one-frame silent batch has non-empty PCM bytes). -/
theorem mp3AudioEncoder_finish_never_fails (w : Nat) (enc : List Nat → List Nat)
    (fl : List Nat) (history : List Audio) (audio : Audio)
    (hw : 0 < w) (hfl : fl ≠ [])
    (hpcm : ∀ a ∈ history, a.pcm.isEmpty = a.isEmpty)
    (hapcm : audio.pcm.isEmpty = audio.isEmpty)
    (hch : 0 < audio.numChannels) :
    (((Mp3AudioEncoder.new w enc fl).runPushes history).push audio true).2
        = Except.ok ((enc audio.pcm
            ++ (if history.all Audio.isEmpty && audio.isEmpty
                then enc (Audio.silence w 1 audio.numChannels audio.sampleRate).pcm
                else []))
            ++ fl) ∧
    ((enc audio.pcm
        ++ (if history.all Audio.isEmpty && audio.isEmpty
            then enc (Audio.silence w 1 audio.numChannels audio.sampleRate).pcm
            else []))
        ++ fl) ≠ [] := by
  obtain ⟨hsw, henc, hflo, hie, hhi⟩ :=
    Mp3AudioEncoder.runPushes_state (Mp3AudioEncoder.new w enc fl) history
  rw [show (Mp3AudioEncoder.new w enc fl).sampleWidth = w from rfl] at hsw
  rw [show (Mp3AudioEncoder.new w enc fl).encodeFn = enc from rfl] at henc
  rw [show (Mp3AudioEncoder.new w enc fl).flushOut = fl from rfl] at hflo
  rw [show (Mp3AudioEncoder.new w enc fl).isEmpty = true from rfl, Bool.true_and] at hie
  rw [show (Mp3AudioEncoder.new w enc fl).lameHasInput = false from rfl,
    Bool.false_or] at hhi
  constructor
  · rw [Mp3AudioEncoder.push_true_snd, hsw, henc, hflo, hie, hhi]
    by_cases ha : audio.isEmpty = true
    · by_cases hall : history.all Audio.isEmpty = true
      · have hap : audio.pcm.isEmpty = true := by rw [hapcm, ha]
        have hsil := Audio.silence_pcm_nonempty w audio.numChannels audio.sampleRate hw hch
        simp [ha, hall, hap, hsil, List.append_assoc,
          List.isEmpty_iff.mp hap]
      · have hall' : history.all Audio.isEmpty = false := by
          cases hq : history.all Audio.isEmpty
          · rfl
          · exact absurd hq hall
        have hany : history.any (fun a => !a.pcm.isEmpty) = true := by
          rw [List.any_eq_true]
          obtain ⟨a, hmem, hfa⟩ := List.all_eq_false.mp hall'
          refine ⟨a, hmem, ?_⟩
          have hfa' : a.isEmpty = false := by
            cases hq : a.isEmpty
            · rfl
            · exact absurd hq hfa
          rw [hpcm a hmem, hfa']
          rfl
        simp [ha, hall', hany, List.append_assoc]
    · have ha' : audio.isEmpty = false := by
        cases hq : audio.isEmpty
        · rfl
        · exact absurd hq ha
      have hap : audio.pcm.isEmpty = false := by rw [hapcm, ha']
      simp [ha', hap, List.append_assoc, List.isEmpty_eq_false.mp hap]
  · simp [List.append_eq_nil, hfl]

/-- C3 witness: the amended statement applied at a fresh chunk-size-3 buffer
fed one byte with `finish=false`. -/
theorem chunkedByteBuffer_extend_always_raises_witness :
    ((ChunkedByteBuffer.new 3).chunkSize ≠ 0 ∨ false = true) ∧
    (ChunkedByteBuffer.new 3).extend [5] false
      = ({ ChunkedByteBuffer.new 3 with
            byteBuffer := (ChunkedByteBuffer.new 3).byteBuffer.push [5] },
          Except.error PyError.frozenInstanceError) :=
  ⟨Or.inl (by decide),
    chunkedByteBuffer_extend_always_raises.1 (ChunkedByteBuffer.new 3) [5] false
      (Or.inl (by decide))⟩

/-- C8 witness: finish after `[97, 98, 99]` (length 3), then extend `[100]`
and finish again; the accumulated text is the single-shot encoding of
`[97, 98, 99, 100]`. -/
theorem base64Stream_no_stream_already_finished_witness :
    (([[97, 98, 99]] : List (List Nat)).flatten).length % 3 = 0 ∧
    ((Base64Stream.run ((([[97, 98, 99]] : List (List Nat)).map (fun d => (d, false))
        ++ [([], true)])
        ++ (([[100]] : List (List Nat)).map (fun d => (d, false)) ++ [([], true)]))).1).string
      = b64encode (([[97, 98, 99]] : List (List Nat)).flatten
          ++ ([[100]] : List (List Nat)).flatten) :=
  ⟨by decide, base64Stream_no_stream_already_finished [[97, 98, 99]] [[100]] (by decide)⟩

/-- C10 witness: finish at length 4, back the cursor up with an empty
extend, then extend two bytes so the aligned boundary 6 reaches past 4:
byte number 3 (the fourth byte) is re-encoded together with the new data. -/
theorem base64Stream_post_finish_duplication_witness :
    ((([[97, 97, 97, 97]] : List (List Nat)).flatten).length % 3 ≠ 0 ∧
      (([[97, 97, 97, 97]] : List (List Nat)).flatten).length
        ≤ ((([[97, 97, 97, 97]] : List (List Nat)).flatten).length
            + ([98, 99] : List Nat).length) / 3 * 3) ∧
    ((((Base64Stream.run (([[97, 97, 97, 97]] : List (List Nat)).map (fun x => (x, false))
        ++ [([], true)])).1).extend [] false).2 = [] ∧
    (((((Base64Stream.run (([[97, 97, 97, 97]] : List (List Nat)).map (fun x => (x, false))
        ++ [([], true)])).1).extend [] false).1).extend [98, 99] false).2
      = b64encode ((([[97, 97, 97, 97]] : List (List Nat)).flatten).drop
          (((([[97, 97, 97, 97]] : List (List Nat)).flatten).length / 3 * 3))
          ++ ([98, 99] : List Nat).take
            (((([[97, 97, 97, 97]] : List (List Nat)).flatten).length
                + ([98, 99] : List Nat).length) / 3 * 3
              - (([[97, 97, 97, 97]] : List (List Nat)).flatten).length))) :=
  ⟨⟨by decide, by decide⟩,
    (base64Stream_post_finish_duplication [[97, 97, 97, 97]] [98, 99]
      (by decide) (by decide)).1,
    (base64Stream_post_finish_duplication [[97, 97, 97, 97]] [98, 99]
      (by decide) (by decide)).2.2.2⟩

/-- C4 witness: a fresh MP3 encoder (sample width 2, identity codec, flush
output `[0]`) receiving a single empty one-channel batch with `finish=true`
succeeds and returns the non-empty byte sequence `[0, 0, 0]` (silent-frame
bytes plus flush output). -/
theorem mp3AudioEncoder_finish_never_fails_witness :
    ((0 : Nat) < 2 ∧ ([0] : List Nat) ≠ []) ∧
    (((Mp3AudioEncoder.new 2 (fun l => l) [0]).runPushes []).push
        ⟨0, 1, 8000, []⟩ true).2 = Except.ok [0, 0, 0] :=
  ⟨⟨by decide, by decide⟩, by
    have h := mp3AudioEncoder_finish_never_fails 2 (fun l => l) [0] []
      ⟨0, 1, 8000, []⟩ (by decide) (by decide) (by simp) (by decide) (by decide)
    rw [h.1]
    rfl⟩

/-- C8 counterexample: a stream finished after one byte, then extended with
two further non-empty bytes, returns the base64 text of those bytes
normally instead of raising a StreamAlreadyFinished error (no such error
exists in the code). -/
theorem base64Stream_c8_counterexample :
    ((Base64Stream.new.extend [97] true).1.extend [98, 99] false).2
      = "YmM=".toList := by
  rfl
